import Mathlib

/-!
Verification of the prerequisite-graph resolution and merge engine of the
MathPrereq backend (`backend/app/data/knowledge_graph.py`,
`backend/app/data/submission_storage.py`,
`backend/app/core/concept_analyzer.py`,
`backend/app/api/submission_routes.py`) against its natural-language
specification.

The Python code is shallowly embedded: pandas CSV tables become `List NodeRow`
/ `List EdgeRow`, the networkx `DiGraph` becomes an explicit record of node
ids (in insertion order), node attributes and edge triples, and Python's
insertion-ordered `dict` becomes an association list whose `insert` keeps the
original position of an overwritten key.  `str.lower` is modelled by
a character-wise lowering (the loaded data is ASCII), and `a in b` substring tests by
an explicit infix-of-characters check.

Exceptions are embedded as `Option`/`Except` or, where the code catches them
and returns a value, directly as that value; the relevant library facts used
in the embedding are documented at the definition they affect (in particular:
`networkx.topological_sort` raises `NetworkXUnfeasible` on a cyclic graph,
and `NetworkXUnfeasible` derives from `NetworkXAlgorithmError`, not from
`NetworkXError`, so the `except nx.NetworkXError` fallback inside
`find_prerequisite_path` never fires and the cycle lands in the outer
`except Exception` handler, which returns `[]`).
-/

namespace MathPrereq

/-- One row of `nodes.csv`: columns `node_id`, `concept_name`, `description`. -/
structure NodeRow where
  node_id : String
  concept_name : String
  description : String
deriving DecidableEq, Repr

/-- One row of `edges.csv`: columns `source_id`, `target_id`,
`relationship_type`. -/
structure EdgeRow where
  source_id : String
  target_id : String
  relationship_type : String
deriving DecidableEq, Repr

/-- Python `str.lower()` on the ASCII data handled by the backend
(character-wise `Char.toLower`; defined structurally on the character list
so that concrete instances evaluate inside the kernel). -/
def pyLower (s : String) : String := ⟨s.data.map Char.toLower⟩

/-- Python `dict` assignment `m[k] = v` on an insertion-ordered dictionary:
an existing key keeps its original position and only its value is replaced,
a new key is appended at the end. -/
def dictInsert {α : Type} : List (String × α) → String → α → List (String × α)
  | [], k, v => [(k, v)]
  | p :: rest, k, v =>
    if p.1 = k then (k, v) :: rest else p :: dictInsert rest k v

/-- Python `m[k]` / `k in m` lookup on the association-list model of a dict
(keys are unique, so the first hit is the entry). -/
def dictFind {α : Type} : List (String × α) → String → Option α
  | [], _ => none
  | p :: rest, k => if p.1 = k then some p.2 else dictFind rest k

/-- Python substring test `needle in hay`. -/
def strContains (hay needle : String) : Bool :=
  hay.data.tails.any (fun t => needle.data.isPrefixOf t)

/-- The in-memory state of `KnowledgeGraph`: the networkx `DiGraph` (node ids
in insertion order, an attribute record per node added with attributes, and
the edge list) together with `concept_mapping`. -/
structure KnowledgeGraph where
  nodes : List String
  attrs : List (String × String × String)
  edges : List (String × String × String)
  concept_mapping : List (String × String)
deriving Repr

def KnowledgeGraph.empty : KnowledgeGraph := ⟨[], [], [], []⟩

/-- `DiGraph.add_node(id, concept_name=, description=)`: a fresh id is
appended, an existing id has its attributes overwritten in place. -/
def addNode (kg : KnowledgeGraph) (id name desc : String) : KnowledgeGraph :=
  { kg with
    nodes := if kg.nodes.contains id then kg.nodes else kg.nodes ++ [id]
    attrs :=
      if kg.attrs.any (fun a => a.1 = id) then
        kg.attrs.map (fun a => if a.1 = id then (id, name, desc) else a)
      else kg.attrs ++ [(id, name, desc)] }

/-- `DiGraph.add_edge` silently adds a missing endpoint as a node without
attributes. -/
def addEdgeNode (kg : KnowledgeGraph) (id : String) : KnowledgeGraph :=
  { kg with
    nodes := if kg.nodes.contains id then kg.nodes else kg.nodes ++ [id] }

/-- `DiGraph.add_edge(u, v, relationship_type=rel)`: endpoints are added as
nodes if missing; a parallel edge is not created, an existing `(u, v)` edge
has its attribute overwritten. -/
def addEdge (kg : KnowledgeGraph) (u v rel : String) : KnowledgeGraph :=
  let kg := addEdgeNode (addEdgeNode kg u) v
  { kg with
    edges :=
      if kg.edges.any (fun e => e.1 = u && e.2.1 = v) then
        kg.edges.map (fun e => if e.1 = u ∧ e.2.1 = v then (u, v, rel) else e)
      else kg.edges ++ [(u, v, rel)] }

/-- The two `concept_mapping` assignments performed for a node row (name key
first, id key second, both holding the row's `node_id`). -/
def insertRowMapping (m : List (String × String)) (r : NodeRow) :
    List (String × String) :=
  dictInsert (dictInsert m (pyLower r.concept_name) r.node_id)
    (pyLower r.node_id) r.node_id

/-- The per-row body of the nodes loop of `load_from_csv`: `add_node`
followed by the two `concept_mapping` assignments. -/
def loadNodeRow (kg : KnowledgeGraph) (r : NodeRow) : KnowledgeGraph :=
  let kg := addNode kg r.node_id r.concept_name r.description
  { kg with concept_mapping := insertRowMapping kg.concept_mapping r }

def loadNodes (kg : KnowledgeGraph) (rows : List NodeRow) : KnowledgeGraph :=
  rows.foldl loadNodeRow kg

def loadEdges (kg : KnowledgeGraph) (rows : List EdgeRow) : KnowledgeGraph :=
  rows.foldl (fun kg r => addEdge kg r.source_id r.target_id r.relationship_type) kg

/-- `KnowledgeGraph.load_from_csv` on already-parsed tables (the
file-existence and CSV-parsing guard clauses re-raise and are outside the
properties below, which quantify over well-formed tables). -/
def loadFromCSV (nodeRows : List NodeRow) (edgeRows : List EdgeRow) :
    KnowledgeGraph :=
  loadEdges (loadNodes KnowledgeGraph.empty nodeRows) edgeRows

/-- `KnowledgeGraph.find_concept_id`: exact (lower-cased) dictionary hit
first, otherwise the first entry of `concept_mapping`, in insertion order,
containing the query as a substring or contained in the query. -/
def find_concept_id (kg : KnowledgeGraph) (concept_name : String) :
    Option String :=
  let lower := pyLower concept_name
  match dictFind kg.concept_mapping lower with
  | some id => some id
  | none =>
    (kg.concept_mapping.find?
        (fun p => strContains p.1 lower || strContains lower p.1)).map
      (fun p => p.2)

/-- Reachability `u →* v` by at most `fuel` edges; with `fuel` at least the
number of vertices this is graph reachability, which is how `nx.ancestors`
(defined through reversed breadth-first search) is embedded. -/
def reachableB (edges : List (String × String × String)) :
    Nat → String → String → Bool
  | 0, u, v => u == v
  | n + 1, u, v =>
    u == v || edges.any (fun e => e.1 == u && reachableB edges n e.2.1 v)

/-- Membership of `x` in `all_prerequisites`, the union over every target
`t` of `nx.ancestors(graph, t) ∪ {t}`: some target is reachable from `x`. -/
def inPrereqs (kg : KnowledgeGraph) (targetNodes : List String) (x : String) :
    Bool :=
  targetNodes.any (fun t => reachableB kg.edges kg.nodes.length x t)

/-- Kahn's algorithm: repeatedly emit a remaining vertex with no incoming
edge from a remaining vertex; `none` when no such vertex exists, i.e. when
the remaining subgraph has a directed cycle, which is exactly when
`nx.topological_sort` raises `NetworkXUnfeasible`.  The claims below depend
only on the result being some topologically valid enumeration of the
vertices, which is what networkx guarantees, so the embedding fixes the
simplest deterministic tie-break (first eligible vertex in subgraph node
order). -/
def topoAux (edges : List (String × String × String)) :
    Nat → List String → Option (List String)
  | _, [] => some []
  | 0, _ :: _ => none
  | fuel + 1, remaining =>
    match remaining.find?
        (fun v => !edges.any (fun e => e.2.1 == v && remaining.contains e.1)) with
    | none => none
    | some v => (topoAux edges fuel (remaining.erase v)).map (fun l => v :: l)

def topoSort (nodes : List String) (edges : List (String × String × String)) :
    Option (List String) :=
  topoAux edges nodes.length nodes

/-- One record of the learning path returned by `find_prerequisite_path`. -/
structure PathEntry where
  id : String
  name : String
  description : String
  type : String
deriving DecidableEq, Repr

/-- The record built for `concept_id` in the output loop of
`find_prerequisite_path` (networkx attribute `.get` defaults: the id itself
for a missing `concept_name`, the empty string for a missing
`description`). -/
def pathEntry (kg : KnowledgeGraph) (targetNodes : List String) (cid : String) :
    PathEntry :=
  match kg.attrs.find? (fun a => a.1 = cid) with
  | some a =>
    ⟨cid, a.2.1, a.2.2, if targetNodes.contains cid then "target" else "prerequisite"⟩
  | none =>
    ⟨cid, cid, "", if targetNodes.contains cid then "target" else "prerequisite"⟩

/-- The `target_nodes` accumulated from the resolvable requested names. -/
def targetNodesOf (kg : KnowledgeGraph) (targetConcepts : List String) :
    List String :=
  targetConcepts.filterMap (fun c => find_concept_id kg c)

/-- The node list of `graph.subgraph(all_prerequisites)` (a networkx subgraph
view enumerates the parent graph's nodes, in insertion order, restricted to
the given set). -/
def subNodesOf (kg : KnowledgeGraph) (targetNodes : List String) : List String :=
  kg.nodes.filter (fun x => inPrereqs kg targetNodes x)

/-- The edge list of `graph.subgraph(all_prerequisites)`: the parent edges
with both endpoints in the set. -/
def subEdgesOf (kg : KnowledgeGraph) (targetNodes : List String) :
    List (String × String × String) :=
  kg.edges.filter
    (fun e => inPrereqs kg targetNodes e.1 && inPrereqs kg targetNodes e.2.1)

/-- `KnowledgeGraph.find_prerequisite_path`.  Control flow embedded:
resolvable names become `target_nodes`; an empty `target_nodes` returns `[]`;
`all_prerequisites` (nonempty here, since it holds the targets) induces the
subgraph; a successful topological sort drives the output loop (whose
`concept_id in self.graph.nodes` test is kept).  On a cyclic subgraph
`nx.topological_sort` raises `NetworkXUnfeasible`, which `except
nx.NetworkXError` does not catch (`NetworkXUnfeasible` derives from
`NetworkXAlgorithmError`), so the intended `list(all_prerequisites)` fallback
is dead code and the outer `except Exception` handler returns `[]`. -/
def find_prerequisite_path (kg : KnowledgeGraph) (targetConcepts : List String) :
    List PathEntry :=
  let targetNodes := targetNodesOf kg targetConcepts
  if targetNodes.isEmpty then []
  else
    match topoSort (subNodesOf kg targetNodes) (subEdgesOf kg targetNodes) with
    | some learningPath =>
      (learningPath.filter (fun cid => kg.nodes.contains cid)).map
        (pathEntry kg targetNodes)
    | none => []

example :
    find_prerequisite_path
      (loadFromCSV
        [⟨"limits", "Limits", "basic"⟩, ⟨"derivatives", "Derivatives", "rate"⟩]
        [⟨"limits", "derivatives", "prerequisite_for"⟩])
      ["Derivatives"] =
    [⟨"limits", "Limits", "basic", "prerequisite"⟩,
     ⟨"derivatives", "Derivatives", "rate", "target"⟩] := by decide

/-! ## Submission merger (`submission_storage.py`)

`SubmissionStorage` defines `integrate_approved_submission` twice; inside a
Python class body the second definition wins, so the effective method is the
CSV-integration one (lines 226-254).  The durable state it mutates is the
pair of CSV tables plus the timestamped backup directory, modelled as
`CsvState` (`backups` in chronological order, the most recent last, matching
the `max(..., key=mtime)` selection of `_restore_csv_backup`). -/

/-- The columns of an approved row of `concept_submissions` that the merge
reads (`suggested_prerequisites` / `suggested_leads_to` already JSON-decoded
into name lists). -/
structure Submission where
  suggested_concept_id : String
  suggested_concept_name : String
  suggested_description : String
  suggested_prerequisites : List String
  suggested_leads_to : List String
deriving DecidableEq, Repr

/-- One row of `relationship_submissions` belonging to the submission. -/
structure RelSubmission where
  source_concept : String
  target_concept : String
  relationship_type : String
deriving DecidableEq, Repr

/-- `SubmissionStorage._find_concept_id_by_name`: first row of `nodes.csv`
whose lower-cased `concept_name` equals the lower-cased query, otherwise the
first row whose lower-cased `concept_name` contains it (`str.contains` with
its default regex interpretation — the concept names involved are plain
words, for which the regex is the literal substring test). -/
def find_concept_id_by_name (nodes : List NodeRow) (name : String) :
    Option String :=
  match nodes.find? (fun r => pyLower r.concept_name = pyLower name) with
  | some r => some r.node_id
  | none =>
    (nodes.find? (fun r => strContains (pyLower r.concept_name) (pyLower name))).map
      (fun r => r.node_id)

/-- The table transformation of `_add_concept_to_nodes_csv`: an already
present `suggested_concept_id` is logged and skipped (the table is left
unchanged), otherwise the new row is appended. -/
def addConceptToNodes (nodes : List NodeRow) (sub : Submission) : List NodeRow :=
  if nodes.any (fun r => r.node_id = sub.suggested_concept_id) then nodes
  else
    nodes ++ [⟨sub.suggested_concept_id, sub.suggested_concept_name,
      sub.suggested_description⟩]

/-- The candidate edges of `_add_relationships_to_edges_csv`, before the
duplicate check: resolved prerequisite edges (existing concept → new
concept), then resolved leads-to edges (new concept → existing concept),
then resolved `relationship_submissions` rows; unresolvable names are
silently dropped.  Resolution runs against the nodes table as it stands
after the node step. -/
def candidateEdges (nodes : List NodeRow) (sub : Submission)
    (rels : List RelSubmission) : List EdgeRow :=
  (sub.suggested_prerequisites.filterMap fun p =>
    (find_concept_id_by_name nodes p).map fun pid =>
      (⟨pid, sub.suggested_concept_id, "prerequisite_for"⟩ : EdgeRow))
  ++ (sub.suggested_leads_to.filterMap fun t =>
    (find_concept_id_by_name nodes t).map fun tid =>
      (⟨sub.suggested_concept_id, tid, "prerequisite_for"⟩ : EdgeRow))
  ++ (rels.filterMap fun rel =>
    match find_concept_id_by_name nodes rel.source_concept,
        find_concept_id_by_name nodes rel.target_concept with
    | some sid, some tid => some (⟨sid, tid, rel.relationship_type⟩ : EdgeRow)
    | _, _ => none)

/-- The pandas triple test `((source_id == s) & (target_id == t) &
(relationship_type == r)).any()` run for each candidate against the edges
table read at the start of the call; a candidate is appended exactly when
the identical triple is not already a row of that table. -/
def newEdges (nodes : List NodeRow) (edges : List EdgeRow) (sub : Submission)
    (rels : List RelSubmission) : List EdgeRow :=
  (candidateEdges nodes sub rels).filter (fun e => !edges.contains e)

/-- The table transformation of `_add_relationships_to_edges_csv` (writing
back an unchanged table and skipping the write coincide at this level). -/
def addRelationshipsToEdges (nodes : List NodeRow) (edges : List EdgeRow)
    (sub : Submission) (rels : List RelSubmission) : List EdgeRow :=
  edges ++ newEdges nodes edges sub rels

/-- Durable CSV state: the two tables plus the backup directory, most recent
backup last. -/
structure CsvState where
  nodes : List NodeRow
  edges : List EdgeRow
  backups : List (List NodeRow × List EdgeRow)
deriving DecidableEq, Repr

/-- `_backup_csv_files`: snapshot both tables under a fresh timestamp. -/
def backupCsvFiles (s : CsvState) : CsvState :=
  { s with backups := s.backups ++ [(s.nodes, s.edges)] }

/-- `_restore_csv_backup`: copy the most recent backup (largest mtime) over
both tables; with no backup available it does nothing. -/
def restoreCsvBackup (s : CsvState) : CsvState :=
  match s.backups.getLast? with
  | some be => { s with nodes := be.1, edges := be.2 }
  | none => s

/-- The two durable write steps that run after the backup and whose
exceptions propagate (the kg-history logging step swallows its own
exceptions and touches no CSV data, so it offers no failure point for the
tables). -/
inductive MergeStep where
  | writeNodes
  | writeEdges
deriving DecidableEq, Repr

/-- `integrate_approved_submission` (the effective, second definition) on an
approved submission, with an optional injected I/O failure: `some step`
means the write of that step raises.  A raise inside
`_add_concept_to_nodes_csv` or `_add_relationships_to_edges_csv` triggers
`_restore_csv_backup` and re-raises; the method's outer `except Exception`
then returns `False`.  A failed write may leave arbitrary partial file
contents, but the subsequent restore overwrites both tables entirely, so the
post-restore state does not depend on the partial contents and the embedding
needs no representation of them. -/
def integrateApprovedSubmission (s : CsvState) (sub : Submission)
    (rels : List RelSubmission) (failAt : Option MergeStep) : Bool × CsvState :=
  let s1 := backupCsvFiles s
  if failAt = some MergeStep.writeNodes then
    (false, restoreCsvBackup s1)
  else
    let s2 := { s1 with nodes := addConceptToNodes s1.nodes sub }
    if failAt = some MergeStep.writeEdges then
      (false, restoreCsvBackup s2)
    else
      (true, { s2 with edges := addRelationshipsToEdges s2.nodes s2.edges sub rels })

/-! ## Review route (`submission_routes.py`)

`@router.post("/review/{submission_id}")` appears twice.  Both decorators run
at import time and register their handler; FastAPI (Starlette) dispatches a
request to the first registered route that matches, so every review request
is served by the first handler (lines 117-147), which awaits
`integrate_approved_submission` but discards its return value; the second
handler (lines 166-217), the one that inspects the result and reports
`integration_status`, is shadowed.  The response fields relevant to the
claims are modelled below; the handlers' storage calls are the functions
above. -/

structure ReviewResponse where
  success : Bool
  message : String
  next_action : String
  integration_status : Option String
deriving DecidableEq, Repr

/-- Response construction of the first registered `/review/{submission_id}`
handler, as a function of the review decision and of the (ignored) result of
`integrate_approved_submission`. -/
def reviewResponseFirst (decision : String) (_integrationResult : Bool) :
    ReviewResponse :=
  { success := true
    message := "Submission " ++ decision ++ " successfully"
    next_action := if decision = "approved" then "integrated_to_kg" else "stored_for_revision"
    integration_status := none }

/-- Response construction of the second registered (shadowed)
`/review/{submission_id}` handler. -/
def reviewResponseSecond (decision : String) (integrationResult : Bool) :
    ReviewResponse :=
  if decision = "approved" then
    if integrationResult then
      { success := true
        message := "Submission approved and integrated into knowledge graph successfully"
        next_action := "integrated_to_kg"
        integration_status := some "success" }
    else
      { success := true
        message := "Submission approved but integration failed. Manual intervention required."
        next_action := "stored_for_revision"
        integration_status := some "failed" }
  else
    { success := true
      message := "Submission " ++ decision ++ " successfully"
      next_action := "stored_for_revision"
      integration_status := none }

/-- The route table for `POST /submissions/review/{submission_id}`, in
registration order. -/
def reviewRoutes : List (String → Bool → ReviewResponse) :=
  [reviewResponseFirst, reviewResponseSecond]

/-- Starlette route matching: the first registered matching route serves the
request. -/
def dispatchReview (decision : String) (integrationResult : Bool) :
    ReviewResponse :=
  (reviewRoutes.headD reviewResponseSecond) decision integrationResult

/-! ## Gap detector (`concept_analyzer._analyze_missing_concept`) -/

/-- A JSON field value as the analyzer handles them: strings, numbers
(JSON numbers embedded as rationals — the only one the properties inspect is
the literal `0.5`, which is exact in either representation), or lists of
strings. -/
inductive FieldVal where
  | s (v : String)
  | q (v : ℚ)
  | l (v : List String)
deriving DecidableEq, Repr

/-- Python `str.replace(old, new)` for a single-character pattern, as used
on the fallback path (`.replace(' ', '_').replace('-', '_')`). -/
def pyReplaceChar (src : String) (oldc newc : Char) : String :=
  ⟨src.data.map (fun c => if c = oldc then newc else c)⟩

/-- The deterministic fallback dictionary built in the `except` branch of
`_analyze_missing_concept`. -/
def fallbackProposal (conceptName sourceQuery : String) :
    List (String × FieldVal) :=
  [("concept_name", FieldVal.s conceptName),
   ("concept_id", FieldVal.s
     (pyReplaceChar (pyReplaceChar (pyLower conceptName) ' ' '_') '-' '_')),
   ("description", FieldVal.s ("Mathematical concept: " ++ conceptName)),
   ("prerequisites", FieldVal.l []),
   ("leads_to", FieldVal.l []),
   ("difficulty_level", FieldVal.s "intermediate"),
   ("confidence_score", FieldVal.q (1/2)),
   ("integration_priority", FieldVal.s "medium"),
   ("reasoning", FieldVal.s ("Identified as necessary for: " ++ sourceQuery)),
   ("source_query", FieldVal.s sourceQuery),
   ("status", FieldVal.s "pending_review")]

/-- `_analyze_missing_concept`.  `reply` abstracts the guarded region: `.ok
fields` is a service reply whose cleaned text `json.loads` to a JSON object
(a dict), `.error ()` is any exception in the guarded region — the service
call raising, `json.loads` failing, or the reply not being a dict (so that
`.update` raises).  A parsed dict is returned with the four metadata keys
merged in; no required-field validation is performed on it.  The except
branch returns the fallback dictionary. -/
def analyzeMissingConcept (conceptName sourceQuery now : String)
    (reply : Except Unit (List (String × FieldVal))) :
    List (String × FieldVal) :=
  match reply with
  | Except.ok conceptData =>
    dictInsert (dictInsert (dictInsert (dictInsert conceptData
      "source_query" (FieldVal.s sourceQuery))
      "identified_by" (FieldVal.s "auto_concept_analyzer"))
      "suggested_at" (FieldVal.s now))
      "status" (FieldVal.s "pending_review")
  | Except.error _ => fallbackProposal conceptName sourceQuery

/-! ## Reload (`KnowledgeGraph.reload_from_csv`)

Modelled from the spec: both review handlers and the `/manual-reload-kg`
route call `knowledge_graph.reload_from_csv()`, but `knowledge_graph.py` in
this tree defines no such method; per the spec (§4.1), `reload()` re-invokes
`load` against the current source location. -/

/-- Modelled from the spec: `reload_from_csv` re-runs `load_from_csv` on the
current contents of the two CSV tables. -/
def reload_from_csv (nodeRows : List NodeRow) (edgeRows : List EdgeRow) :
    KnowledgeGraph :=
  loadFromCSV nodeRows edgeRows

/-! ## Lookup characterization: `concept_mapping` after a load -/

/-- A node row binds `key` in `concept_mapping` iff its lower-cased name or
its lower-cased id equals `key`; either binding holds the row's `node_id`. -/
def rowKeyMatch (key : String) (r : NodeRow) : Bool :=
  pyLower r.concept_name = key || pyLower r.node_id = key

theorem dictFind_dictInsert {α : Type} (m : List (String × α)) (k key : String)
    (v : α) :
    dictFind (dictInsert m k v) key = if key = k then some v else dictFind m key := by
  induction m with
  | nil =>
    rcases eq_or_ne key k with h | h
    · subst h; simp [dictInsert, dictFind]
    · simp [dictInsert, dictFind, if_neg h, if_neg (Ne.symm h)]
  | cons p rest ih =>
    by_cases hp : p.1 = k
    · rcases eq_or_ne key k with h | h
      · subst h; simp [dictInsert, dictFind, hp]
      · simp [dictInsert, dictFind, hp, if_neg h, if_neg (Ne.symm h),
          if_neg (fun hh : p.1 = key => h (hh ▸ hp ▸ rfl))]
    · by_cases hpk : p.1 = key
      · have hk : key ≠ k := fun h => hp (hpk.trans h)
        simp [dictInsert, dictFind, hp, hpk, if_neg hk]
      · simp [dictInsert, dictFind, hp, hpk, ih]

theorem dictFind_insertRowMapping (m : List (String × String)) (r : NodeRow)
    (key : String) :
    dictFind (insertRowMapping m r) key =
      if rowKeyMatch key r then some r.node_id else dictFind m key := by
  simp only [insertRowMapping, dictFind_dictInsert, rowKeyMatch]
  rcases eq_or_ne key (pyLower r.node_id) with h1 | h1
  · simp [h1]
  · rcases eq_or_ne key (pyLower r.concept_name) with h2 | h2
    · simp [h1, h2, if_neg (Ne.symm h1)]
    · rw [if_neg h1, if_neg h2, if_neg]
      simp [Ne.symm h1, Ne.symm h2]

theorem dictFind_foldl_insertRowMapping (rows : List NodeRow)
    (m : List (String × String)) (key : String) :
    dictFind (rows.foldl insertRowMapping m) key =
      match rows.reverse.find? (rowKeyMatch key) with
      | some r => some r.node_id
      | none => dictFind m key := by
  induction rows generalizing m with
  | nil => simp
  | cons r rest ih =>
    simp only [List.foldl_cons, ih, List.reverse_cons, List.find?_append]
    cases hfind : rest.reverse.find? (rowKeyMatch key) with
    | some r' => simp [Option.or]
    | none =>
      simp only [Option.or, List.find?]
      cases hr : rowKeyMatch key r with
      | true => simp [dictFind_insertRowMapping, hr]
      | false => simp [dictFind_insertRowMapping, hr]

theorem loadNodes_concept_mapping (rows : List NodeRow) (kg : KnowledgeGraph) :
    (loadNodes kg rows).concept_mapping =
      rows.foldl insertRowMapping kg.concept_mapping := by
  induction rows generalizing kg with
  | nil => rfl
  | cons r rest ih =>
    simp only [loadNodes, List.foldl_cons] at *
    rw [ih]
    rfl

theorem loadEdges_concept_mapping (rows : List EdgeRow) (kg : KnowledgeGraph) :
    (loadEdges kg rows).concept_mapping = kg.concept_mapping := by
  induction rows generalizing kg with
  | nil => rfl
  | cons r rest ih =>
    simp only [loadEdges, List.foldl_cons] at *
    rw [ih]
    rfl

theorem loadFromCSV_concept_mapping (NR : List NodeRow) (ER : List EdgeRow) :
    (loadFromCSV NR ER).concept_mapping = NR.foldl insertRowMapping [] := by
  rw [loadFromCSV, loadEdges_concept_mapping, loadNodes_concept_mapping]
  rfl

/-- The exact-match branch of `find_concept_id` resolves a bound key to the
`node_id` of the last loading row that bound it (Python dict assignment
overwrites earlier bindings of the same key). -/
theorem find_concept_id_of_reverse_find (NR : List NodeRow) (ER : List EdgeRow)
    (name : String) (r : NodeRow)
    (h : NR.reverse.find? (rowKeyMatch (pyLower name)) = some r) :
    find_concept_id (loadFromCSV NR ER) name = some r.node_id := by
  have hd : dictFind (loadFromCSV NR ER).concept_mapping (pyLower name) =
      some r.node_id := by
    rw [loadFromCSV_concept_mapping, dictFind_foldl_insertRowMapping, h]
  simp [find_concept_id, hd]

/-- C5 (amended): name lookup is case-insensitive — two queries with the
same lower-casing resolve identically — and returns at most one identifier;
when several loaded rows bind the same lower-cased key (name or id), the
binding of the LAST such row in load order wins, because the Python dict
assignment in `load_from_csv` overwrites the earlier binding in place (the
first-match-in-insertion-order rule applies only to the substring branch). -/
theorem find_concept_id_case_insensitive_last_tie_wins (NR : List NodeRow)
    (ER : List EdgeRow) (name : String) (r : NodeRow)
    (hlast : NR.reverse.find? (rowKeyMatch (pyLower name)) = some r) :
    (∀ n₁ n₂ : String, pyLower n₁ = pyLower n₂ →
      find_concept_id (loadFromCSV NR ER) n₁ = find_concept_id (loadFromCSV NR ER) n₂) ∧
    find_concept_id (loadFromCSV NR ER) name = some r.node_id := by
  refine ⟨fun n₁ n₂ h => ?_, find_concept_id_of_reverse_find NR ER name r hlast⟩
  simp only [find_concept_id, h]

/-- C5 counterexample: two loaded concepts share the lower-cased name
`"calc"`; the claim says the tie breaks to the first match in load order
(`"a1"`), but `find_concept_id` resolves to the identifier of the last row
(`"a2"`), because the second dict assignment overwrote the first. -/
theorem find_concept_id_tie_first_match_counterexample :
    find_concept_id (loadFromCSV
      [⟨"a1", "Calc", "d1"⟩, ⟨"a2", "Calc", "d2"⟩] []) "Calc" = some "a2" ∧
    ("a2" : String) ≠ "a1" := by decide

theorem find_concept_id_case_insensitive_last_tie_wins_witness :
    find_concept_id (loadFromCSV
      [⟨"a1", "Calc", "d1"⟩, ⟨"a2", "Calc", "d2"⟩] []) "CALC" = some "a2" :=
  (find_concept_id_case_insensitive_last_tie_wins
    [⟨"a1", "Calc", "d1"⟩, ⟨"a2", "Calc", "d2"⟩] [] "CALC" ⟨"a2", "Calc", "d2"⟩
    (by decide)).2

/-- C9 (amended): resolving a node identifier returns the identifier itself
provided no row loaded later re-binds its lower-cased key (with its
`concept_name` or `node_id`); the hypothesis states that the last row
binding the key is the identifier's own row.  Without it the claim fails,
see the counterexample. -/
theorem find_concept_id_idempotent_on_unshadowed_ids (NR : List NodeRow)
    (ER : List EdgeRow) (r : NodeRow)
    (hlast : NR.reverse.find? (rowKeyMatch (pyLower r.node_id)) = some r) :
    find_concept_id (loadFromCSV NR ER) r.node_id = some r.node_id :=
  find_concept_id_of_reverse_find NR ER r.node_id r hlast

/-- C9 counterexample: `"derivative"` is a node identifier of the loaded
graph, but a later row's `concept_name` lower-cases to the same key and
overwrites its mapping entry, so resolving the identifier returns `"c2"`,
not the identifier itself. -/
theorem find_concept_id_idempotence_counterexample :
    ("derivative" ∈ (loadFromCSV
      [⟨"derivative", "Derivative", "d1"⟩, ⟨"c2", "derivative", "d2"⟩] []).nodes) ∧
    find_concept_id (loadFromCSV
      [⟨"derivative", "Derivative", "d1"⟩, ⟨"c2", "derivative", "d2"⟩] [])
      "derivative" = some "c2" ∧
    ("c2" : String) ≠ "derivative" := by decide

theorem find_concept_id_idempotent_on_unshadowed_ids_witness :
    find_concept_id (loadFromCSV
      [⟨"limits", "Limits", "d"⟩, ⟨"derivatives", "Derivatives", "dd"⟩] [])
      "derivatives" = some "derivatives" :=
  find_concept_id_idempotent_on_unshadowed_ids
    [⟨"limits", "Limits", "d"⟩, ⟨"derivatives", "Derivatives", "dd"⟩] []
    ⟨"derivatives", "Derivatives", "dd"⟩ (by decide)

/-! ## Merge claims -/

/-- C6: merging a submission whose proposed identifier already exists among
the nodes leaves the node table unchanged (same rows, same count — no
overwrite, no rename); the conflict is a logged skip, not an exception, so
the merge call runs to completion and still returns `True`. -/
theorem merge_conflict_keeps_node_table (s : CsvState) (sub : Submission)
    (rels : List RelSubmission)
    (h : s.nodes.any (fun r => r.node_id = sub.suggested_concept_id) = true) :
    (integrateApprovedSubmission s sub rels none).1 = true ∧
    (integrateApprovedSubmission s sub rels none).2.nodes = s.nodes ∧
    (integrateApprovedSubmission s sub rels none).2.nodes.length = s.nodes.length := by
  simp [integrateApprovedSubmission, backupCsvFiles, addConceptToNodes, h]

theorem merge_conflict_keeps_node_table_witness :
    (integrateApprovedSubmission ⟨[⟨"limits", "Limits", "d"⟩], [], []⟩
      ⟨"limits", "Limits again", "dd", [], []⟩ [] none).2.nodes =
      [⟨"limits", "Limits", "d"⟩] :=
  (merge_conflict_keeps_node_table ⟨[⟨"limits", "Limits", "d"⟩], [], []⟩
    ⟨"limits", "Limits again", "dd", [], []⟩ [] (by decide)).2.1

/-- C7: during a merge an edge row is appended only when the identical
`(source_id, target_id, relationship_type)` triple is not already a row of
the edges table read at the start of the call, and re-merging the same
declared relationships against the same node table appends no further rows
(idempotent append). -/
theorem edge_append_idempotent (nodes : List NodeRow) (edges : List EdgeRow)
    (sub : Submission) (rels : List RelSubmission) :
    (∀ e ∈ newEdges nodes edges sub rels, e ∉ edges) ∧
    addRelationshipsToEdges nodes (addRelationshipsToEdges nodes edges sub rels)
        sub rels =
      addRelationshipsToEdges nodes edges sub rels := by
  constructor
  · intro e he hmem
    have h2 := (List.mem_filter.mp he).2
    have hc : edges.contains e = true := List.elem_iff.mpr hmem
    rw [hc] at h2
    exact absurd h2 (by decide)
  · have hnil :
        newEdges nodes (addRelationshipsToEdges nodes edges sub rels) sub rels = [] := by
      rw [newEdges, List.filter_eq_nil_iff]
      intro a ha hcontra
      have : ¬ (addRelationshipsToEdges nodes edges sub rels).contains a = true := by
        simpa using hcontra
      apply this
      apply List.elem_iff.mpr
      rw [addRelationshipsToEdges]
      by_cases hmem : a ∈ edges
      · exact List.mem_append_left _ hmem
      · refine List.mem_append_right _ ?_
        refine List.mem_filter.mpr ⟨ha, ?_⟩
        have hfalse : edges.contains a = false := by
          cases hb : edges.contains a with
          | false => rfl
          | true => exact absurd (List.elem_iff.mp hb) hmem
        rw [hfalse]
        decide
    rw [addRelationshipsToEdges, hnil, List.append_nil]

theorem edge_append_idempotent_witness :
    ((⟨"limits", "derivatives", "prerequisite_for"⟩ : EdgeRow) ∉
      ([⟨"funcs", "limits", "prerequisite_for"⟩] : List EdgeRow)) ∧
    addRelationshipsToEdges [⟨"limits", "Limits", "d"⟩]
        (addRelationshipsToEdges [⟨"limits", "Limits", "d"⟩]
          [⟨"funcs", "limits", "prerequisite_for"⟩]
          ⟨"derivatives", "Derivatives", "dd", ["Limits"], []⟩ [])
        ⟨"derivatives", "Derivatives", "dd", ["Limits"], []⟩ [] =
      addRelationshipsToEdges [⟨"limits", "Limits", "d"⟩]
        [⟨"funcs", "limits", "prerequisite_for"⟩]
        ⟨"derivatives", "Derivatives", "dd", ["Limits"], []⟩ [] :=
  ⟨(edge_append_idempotent [⟨"limits", "Limits", "d"⟩]
      [⟨"funcs", "limits", "prerequisite_for"⟩]
      ⟨"derivatives", "Derivatives", "dd", ["Limits"], []⟩ []).1
      ⟨"limits", "derivatives", "prerequisite_for"⟩ (by decide),
    (edge_append_idempotent [⟨"limits", "Limits", "d"⟩]
      [⟨"funcs", "limits", "prerequisite_for"⟩]
      ⟨"derivatives", "Derivatives", "dd", ["Limits"], []⟩ []).2⟩

/-- C10: when the proposed identifier already exists, the node append is
skipped but the merge still resolves and appends the declared relationship
edges against the existing node table and returns `True` — a bare boolean
success carrying no indication of the identifier conflict. -/
theorem merge_conflict_reports_plain_success (s : CsvState) (sub : Submission)
    (rels : List RelSubmission)
    (h : s.nodes.any (fun r => r.node_id = sub.suggested_concept_id) = true) :
    (integrateApprovedSubmission s sub rels none).1 = true ∧
    (integrateApprovedSubmission s sub rels none).2.nodes = s.nodes ∧
    (integrateApprovedSubmission s sub rels none).2.edges =
      addRelationshipsToEdges s.nodes s.edges sub rels := by
  simp [integrateApprovedSubmission, backupCsvFiles, addConceptToNodes, h]

theorem merge_conflict_reports_plain_success_witness :
    (integrateApprovedSubmission
      ⟨[⟨"limits", "Limits", "d"⟩, ⟨"derivatives", "Derivatives", "dd"⟩],
        [], []⟩
      ⟨"derivatives", "Derivatives v2", "x", ["Limits"], []⟩ [] none).2.edges =
      addRelationshipsToEdges
        [⟨"limits", "Limits", "d"⟩, ⟨"derivatives", "Derivatives", "dd"⟩] []
        ⟨"derivatives", "Derivatives v2", "x", ["Limits"], []⟩ [] :=
  (merge_conflict_reports_plain_success
    ⟨[⟨"limits", "Limits", "d"⟩, ⟨"derivatives", "Derivatives", "dd"⟩], [], []⟩
    ⟨"derivatives", "Derivatives v2", "x", ["Limits"], []⟩ [] (by decide)).2.2

/-! ## Rollback and route reporting (C2) -/

/-- A failure injected at either durable write step after the backup leaves
both tables equal to their pre-merge backup contents and makes
`integrate_approved_submission` return `False` (general supporting lemma). -/
theorem integrate_failure_restores_backup (s : CsvState) (sub : Submission)
    (rels : List RelSubmission) (step : MergeStep) :
    (integrateApprovedSubmission s sub rels (some step)).1 = false ∧
    (integrateApprovedSubmission s sub rels (some step)).2.nodes = s.nodes ∧
    (integrateApprovedSubmission s sub rels (some step)).2.edges = s.edges := by
  cases step <;>
    simp [integrateApprovedSubmission, backupCsvFiles, restoreCsvBackup]

/-- C2: at a merge that fails mid-persist (here: the edges write raises),
the storage layer behaves exactly as claimed — the backup taken at the start
of the call is restored, both tables equal their pre-merge contents, and
`integrate_approved_submission` returns `False` — but the HTTP caller is
answered by the FIRST registered `/review/{submission_id}` handler, which
discards that `False` and replies `success = true`,
`next_action = "integrated_to_kg"` with no `integration_status` field at
all; the handler that would report `integration_status = "failed"` is
shadowed by registration order. -/
theorem failed_merge_rollback_but_route_reports_success :
    (integrateApprovedSubmission
      ⟨[⟨"limits", "Limits", "d"⟩], [⟨"funcs", "limits", "prerequisite_for"⟩], []⟩
      ⟨"derivatives", "Derivatives", "dd", ["Limits"], []⟩ []
      (some MergeStep.writeEdges)).1 = false ∧
    (integrateApprovedSubmission
      ⟨[⟨"limits", "Limits", "d"⟩], [⟨"funcs", "limits", "prerequisite_for"⟩], []⟩
      ⟨"derivatives", "Derivatives", "dd", ["Limits"], []⟩ []
      (some MergeStep.writeEdges)).2.nodes = [⟨"limits", "Limits", "d"⟩] ∧
    (integrateApprovedSubmission
      ⟨[⟨"limits", "Limits", "d"⟩], [⟨"funcs", "limits", "prerequisite_for"⟩], []⟩
      ⟨"derivatives", "Derivatives", "dd", ["Limits"], []⟩ []
      (some MergeStep.writeEdges)).2.edges = [⟨"funcs", "limits", "prerequisite_for"⟩] ∧
    dispatchReview "approved" false =
      ⟨true, "Submission approved successfully", "integrated_to_kg", none⟩ ∧
    reviewResponseSecond "approved" false =
      ⟨true, "Submission approved but integration failed. Manual intervention required.",
        "stored_for_revision", some "failed"⟩ := by decide

/-! ## Cycle handling (C3) -/

/-- C3: on a two-node cycle the induced prerequisite subgraph is the whole
nonempty vertex set `["a", "b"]`, which the claimed set-iteration fallback
would emit; the code instead returns `[]`, because the cycle makes
`nx.topological_sort` raise `NetworkXUnfeasible`, which is not a
`NetworkXError`, so the fallback `except` arm never runs and the outer
`except Exception` handler of `find_prerequisite_path` returns the empty
list. -/
theorem cycle_fallback_returns_empty_instead_of_set :
    find_prerequisite_path
      (loadFromCSV [⟨"a", "A", "da"⟩, ⟨"b", "B", "db"⟩]
        [⟨"a", "b", "prerequisite_for"⟩, ⟨"b", "a", "prerequisite_for"⟩])
      ["A"] = [] ∧
    (loadFromCSV [⟨"a", "A", "da"⟩, ⟨"b", "B", "db"⟩]
        [⟨"a", "b", "prerequisite_for"⟩, ⟨"b", "a", "prerequisite_for"⟩]).nodes.filter
      (fun x =>
        inPrereqs
          (loadFromCSV [⟨"a", "A", "da"⟩, ⟨"b", "B", "db"⟩]
            [⟨"a", "b", "prerequisite_for"⟩, ⟨"b", "a", "prerequisite_for"⟩])
          ["a"] x) = ["a", "b"] := by decide

/-! ## Gap detector (C8) -/

/-- C8 counterexample: a generation-service reply that parses to a JSON
object but lacks every required field is returned as-is (with metadata keys
merged in), not replaced by the deterministic fallback: the returned
proposal has no `concept_id` and no `prerequisites` at all, where the claim
requires the lower-cased underscored name and an empty list. -/
theorem gap_detector_missing_fields_counterexample :
    dictFind ([("foo", FieldVal.s "bar")] : List (String × FieldVal)) "concept_id"
        = none ∧
    dictFind (analyzeMissingConcept "Chain Rule" "how do I differentiate f(g(x))"
      "2025-01-01T00:00:00" (Except.ok [("foo", FieldVal.s "bar")])) "concept_id"
        = none ∧
    dictFind (analyzeMissingConcept "Chain Rule" "how do I differentiate f(g(x))"
      "2025-01-01T00:00:00" (Except.ok [("foo", FieldVal.s "bar")])) "prerequisites"
        = none := by decide

/-- C8 (amended): when the generation service fails or its reply cannot be
parsed as a JSON object (any exception in the guarded region), the gap
detector returns — it cannot raise, being a total function of the reply —
the deterministic fallback proposal, whose id is the input name lower-cased
with spaces and hyphens replaced by underscores, whose prerequisites list is
empty and whose confidence score equals (hence is at most) the fixed low
default `0.5`; a reply that parses to a JSON object is however returned
as-is even when required fields are missing. -/
theorem gap_detector_failure_returns_fallback (conceptName sourceQuery now : String) :
    analyzeMissingConcept conceptName sourceQuery now (Except.error ()) =
      fallbackProposal conceptName sourceQuery ∧
    dictFind (fallbackProposal conceptName sourceQuery) "concept_id" =
      some (FieldVal.s
        (pyReplaceChar (pyReplaceChar (pyLower conceptName) ' ' '_') '-' '_')) ∧
    dictFind (fallbackProposal conceptName sourceQuery) "prerequisites" =
      some (FieldVal.l []) ∧
    ∃ c : ℚ, dictFind (fallbackProposal conceptName sourceQuery) "confidence_score" =
      some (FieldVal.q c) ∧ c ≤ 1/2 := by
  refine ⟨rfl, rfl, rfl, 1/2, rfl, le_refl _⟩

/-! ## Kahn's algorithm: soundness and completeness -/

theorem reachableB_refl (edges : List (String × String × String)) (n : Nat)
    (u : String) : reachableB edges n u u = true := by
  cases n <;> simp [reachableB]

theorem topoAux_nil (edges : List (String × String × String)) (fuel : Nat) :
    topoAux edges fuel [] = some [] := by
  cases fuel <;> rfl

theorem topoAux_cons (edges : List (String × String × String)) (fuel : Nat)
    (a : String) (rest : List String) :
    topoAux edges (fuel + 1) (a :: rest) =
      match (a :: rest).find?
          (fun v => !edges.any fun e => e.2.1 == v && (a :: rest).contains e.1) with
      | none => none
      | some v => (topoAux edges fuel ((a :: rest).erase v)).map (fun l => v :: l) :=
  rfl

/-- A successful `topoAux` run enumerates the remaining vertices exactly
once, and every passed edge with both endpoints in the output has its source
strictly before its target. -/
theorem topoAux_sound (edges : List (String × String × String)) :
    ∀ (fuel : Nat) (remaining order : List String), remaining.Nodup →
      topoAux edges fuel remaining = some order →
      order.Perm remaining ∧
      (∀ e ∈ edges, e.1 ∈ order → e.2.1 ∈ order → [e.1, e.2.1].Sublist order) := by
  intro fuel
  induction fuel with
  | zero =>
    intro remaining order hnd h
    cases remaining with
    | nil =>
      simp only [topoAux, Option.some.injEq] at h
      subst h
      exact ⟨List.Perm.refl _, fun e _ h1 _ => absurd h1 (List.not_mem_nil _)⟩
    | cons a rest => simp [topoAux] at h
  | succ fuel ih =>
    intro remaining order hnd h
    cases remaining with
    | nil =>
      simp only [topoAux, Option.some.injEq] at h
      subst h
      exact ⟨List.Perm.refl _, fun e _ h1 _ => absurd h1 (List.not_mem_nil _)⟩
    | cons a rest =>
      rw [topoAux_cons] at h
      cases hfind : (a :: rest).find?
          (fun v => !edges.any fun e => e.2.1 == v && (a :: rest).contains e.1) with
      | none => rw [hfind] at h; exact absurd h (by simp)
      | some v =>
        rw [hfind] at h
        dsimp only at h
        cases htail : topoAux edges fuel ((a :: rest).erase v) with
        | none => rw [htail] at h; exact absurd h (by simp)
        | some rest' =>
          rw [htail] at h
          simp only [Option.map_some', Option.some.injEq] at h
          subst h
          have hvmem : v ∈ a :: rest := List.mem_of_find?_eq_some hfind
          have hpred := List.find?_some hfind
          have hnoin : ∀ e ∈ edges, e.2.1 = v → e.1 ∉ a :: rest := by
            intro e he htgt hsrc
            have hx : (edges.any fun e => e.2.1 == v && (a :: rest).contains e.1) = true :=
              List.any_eq_true.mpr
                ⟨e, he, by
                  rw [Bool.and_eq_true, beq_iff_eq]
                  exact ⟨htgt, List.elem_iff.mpr hsrc⟩⟩
            rw [hx] at hpred
            exact absurd hpred (by decide)
          obtain ⟨hperm', hsub'⟩ :=
            ih ((a :: rest).erase v) rest' (hnd.erase v) htail
          have hperm : (v :: rest').Perm (a :: rest) :=
            (hperm'.cons v).trans (List.perm_cons_erase hvmem).symm
          refine ⟨hperm, ?_⟩
          intro e he h1 h2
          rcases List.mem_cons.mp h1 with h1v | h1r
          · rcases List.mem_cons.mp h2 with h2v | h2r
            · exact absurd (h1v ▸ hvmem) (hnoin e he h2v)
            · rw [h1v]
              exact (List.singleton_sublist.mpr h2r).cons₂ v
          · have h1R : e.1 ∈ a :: rest :=
              hperm.mem_iff.mp (List.mem_cons_of_mem v h1r)
            rcases List.mem_cons.mp h2 with h2v | h2r
            · exact absurd h1R (hnoin e he h2v)
            · exact (hsub' e he h1r h2r).cons v

theorem exists_min_rank (rank : String → Nat) :
    ∀ (l : List String), l ≠ [] → ∃ m ∈ l, ∀ x ∈ l, rank m ≤ rank x := by
  intro l
  induction l with
  | nil => intro h; exact absurd rfl h
  | cons a rest ih =>
    intro _
    by_cases hrest : rest = []
    · subst hrest
      exact ⟨a, List.mem_singleton_self a, by
        intro x hx
        rw [List.mem_singleton.mp hx]⟩
    · obtain ⟨m, hm, hmin⟩ := ih hrest
      by_cases hc : rank a ≤ rank m
      · refine ⟨a, List.mem_cons_self a rest, ?_⟩
        intro x hx
        rcases List.mem_cons.mp hx with h | h
        · rw [h]
        · exact le_trans hc (hmin x h)
      · refine ⟨m, List.mem_cons_of_mem a hm, ?_⟩
        intro x hx
        rcases List.mem_cons.mp hx with h | h
        · rw [h]; exact Nat.le_of_lt (Nat.lt_of_not_le hc)
        · exact hmin x h

/-- When a rank certificate witnesses acyclicity of the passed edges, Kahn's
algorithm cannot get stuck: a remaining vertex of minimal rank has no
incoming edge from a remaining vertex. -/
theorem topoAux_complete (edges : List (String × String × String))
    (rank : String → Nat) (hrank : ∀ e ∈ edges, rank e.1 < rank e.2.1) :
    ∀ (fuel : Nat) (remaining : List String), remaining.length ≤ fuel →
      ∃ order, topoAux edges fuel remaining = some order := by
  intro fuel
  induction fuel with
  | zero =>
    intro remaining hlen
    have : remaining = [] := List.eq_nil_of_length_eq_zero (Nat.le_zero.mp hlen)
    subst this
    exact ⟨[], rfl⟩
  | succ fuel ih =>
    intro remaining hlen
    cases remaining with
    | nil => exact ⟨[], rfl⟩
    | cons a rest =>
      obtain ⟨m, hmmem, hmin⟩ := exists_min_rank rank (a :: rest) (by simp)
      have hpredm :
          (!edges.any fun e => e.2.1 == m && (a :: rest).contains e.1) = true := by
        have hfalse :
            (edges.any fun e => e.2.1 == m && (a :: rest).contains e.1) = false := by
          cases hb : (edges.any fun e => e.2.1 == m && (a :: rest).contains e.1) with
          | false => rfl
          | true =>
            obtain ⟨e, he, hee⟩ := List.any_eq_true.mp hb
            rw [Bool.and_eq_true, beq_iff_eq] at hee
            have h1 : rank e.1 < rank m := hee.1 ▸ hrank e he
            have h2 : rank m ≤ rank e.1 := hmin e.1 (List.elem_iff.mp hee.2)
            exact absurd h1 (Nat.not_lt.mpr h2)
        rw [hfalse]
        decide
      have hsome : ((a :: rest).find?
          (fun v => !edges.any fun e => e.2.1 == v && (a :: rest).contains e.1)).isSome :=
        List.find?_isSome.mpr ⟨m, hmmem, hpredm⟩
      obtain ⟨v, hv⟩ := Option.isSome_iff_exists.mp hsome
      have hvmem : v ∈ a :: rest := List.mem_of_find?_eq_some hv
      have hlen' : ((a :: rest).erase v).length ≤ fuel := by
        rw [List.length_erase_of_mem hvmem]
        simp only [List.length_cons] at hlen ⊢
        omega
      obtain ⟨order', horder'⟩ := ih ((a :: rest).erase v) hlen'
      refine ⟨v :: order', ?_⟩
      rw [topoAux_cons, hv]
      dsimp only
      rw [horder']
      rfl

/-! ## Structural invariants of a loaded graph -/

theorem nodup_appendIfAbsent (l : List String) (x : String) (h : l.Nodup) :
    (if l.contains x then l else l ++ [x]).Nodup := by
  split
  · exact h
  · rename_i hc
    have hx : x ∉ l := fun hm => hc (List.elem_iff.mpr hm)
    simp [List.nodup_append, h, hx]

theorem mem_appendIfAbsent_self (l : List String) (x : String) :
    x ∈ (if l.contains x then l else l ++ [x]) := by
  split
  · exact List.elem_iff.mp (by assumption)
  · exact List.mem_append_right _ (List.mem_singleton_self x)

theorem mem_appendIfAbsent_of_mem (l : List String) (x y : String) (h : y ∈ l) :
    y ∈ (if l.contains x then l else l ++ [x]) := by
  split
  · exact h
  · exact List.mem_append_left _ h

theorem loadNodeRow_nodes (kg : KnowledgeGraph) (r : NodeRow) :
    (loadNodeRow kg r).nodes =
      if kg.nodes.contains r.node_id then kg.nodes else kg.nodes ++ [r.node_id] :=
  rfl

theorem addEdge_nodes (kg : KnowledgeGraph) (u v rel : String) :
    (addEdge kg u v rel).nodes = (addEdgeNode (addEdgeNode kg u) v).nodes :=
  rfl

theorem loadNodes_nodes_nodup (rows : List NodeRow) (kg : KnowledgeGraph)
    (h : kg.nodes.Nodup) : (loadNodes kg rows).nodes.Nodup := by
  induction rows generalizing kg with
  | nil => exact h
  | cons r rest ih =>
    exact ih (loadNodeRow kg r) (loadNodeRow_nodes kg r ▸ nodup_appendIfAbsent _ _ h)

theorem loadEdges_nodes_nodup (rows : List EdgeRow) (kg : KnowledgeGraph)
    (h : kg.nodes.Nodup) : (loadEdges kg rows).nodes.Nodup := by
  induction rows generalizing kg with
  | nil => exact h
  | cons r rest ih =>
    refine ih _ ?_
    rw [addEdge_nodes]
    exact nodup_appendIfAbsent _ _ (nodup_appendIfAbsent _ _ h)

theorem loadFromCSV_nodes_nodup (NR : List NodeRow) (ER : List EdgeRow) :
    (loadFromCSV NR ER).nodes.Nodup :=
  loadEdges_nodes_nodup ER _ (loadNodes_nodes_nodup NR KnowledgeGraph.empty List.nodup_nil)

theorem mem_nodes_loadNodes (rows : List NodeRow) (kg : KnowledgeGraph)
    (y : String) (h : y ∈ kg.nodes) : y ∈ (loadNodes kg rows).nodes := by
  induction rows generalizing kg with
  | nil => exact h
  | cons r rest ih =>
    exact ih (loadNodeRow kg r) (loadNodeRow_nodes kg r ▸ mem_appendIfAbsent_of_mem _ _ _ h)

theorem mem_nodes_loadEdges (rows : List EdgeRow) (kg : KnowledgeGraph)
    (y : String) (h : y ∈ kg.nodes) : y ∈ (loadEdges kg rows).nodes := by
  induction rows generalizing kg with
  | nil => exact h
  | cons r rest ih =>
    refine ih _ ?_
    rw [addEdge_nodes]
    exact mem_appendIfAbsent_of_mem _ _ _ (mem_appendIfAbsent_of_mem _ _ _ h)

theorem mem_dictInsert {α : Type} (p : String × α) (m : List (String × α))
    (k : String) (v : α) (h : p ∈ dictInsert m k v) : p = (k, v) ∨ p ∈ m := by
  induction m with
  | nil =>
    simp only [dictInsert, List.mem_singleton] at h
    exact Or.inl h
  | cons q rest ih =>
    by_cases hq : q.1 = k
    · simp only [dictInsert, if_pos hq] at h
      rcases List.mem_cons.mp h with h | h
      · exact Or.inl h
      · exact Or.inr (List.mem_cons_of_mem q h)
    · simp only [dictInsert, if_neg hq] at h
      rcases List.mem_cons.mp h with h | h
      · exact Or.inr (h ▸ List.mem_cons_self q rest)
      · rcases ih h with h | h
        · exact Or.inl h
        · exact Or.inr (List.mem_cons_of_mem q h)

theorem loadNodes_mapping_sub_nodes (rows : List NodeRow) (kg : KnowledgeGraph)
    (h : ∀ p ∈ kg.concept_mapping, p.2 ∈ kg.nodes) :
    ∀ p ∈ (loadNodes kg rows).concept_mapping, p.2 ∈ (loadNodes kg rows).nodes := by
  induction rows generalizing kg with
  | nil => exact h
  | cons r rest ih =>
    refine ih (loadNodeRow kg r) ?_
    intro p hp
    have hid : r.node_id ∈ (loadNodeRow kg r).nodes :=
      loadNodeRow_nodes kg r ▸ mem_appendIfAbsent_self _ _
    rcases mem_dictInsert p _ _ _ hp with h1 | h1
    · rw [h1]; exact hid
    · rcases mem_dictInsert p _ _ _ h1 with h2 | h2
      · rw [h2]; exact hid
      · exact loadNodeRow_nodes kg r ▸ mem_appendIfAbsent_of_mem _ _ _ (h p h2)

theorem loadFromCSV_mapping_sub_nodes (NR : List NodeRow) (ER : List EdgeRow) :
    ∀ p ∈ (loadFromCSV NR ER).concept_mapping, p.2 ∈ (loadFromCSV NR ER).nodes := by
  intro p hp
  rw [loadFromCSV, loadEdges_concept_mapping] at hp
  exact mem_nodes_loadEdges ER _ _
    (loadNodes_mapping_sub_nodes NR KnowledgeGraph.empty (by intro q hq; cases hq) p hp)

theorem dictFind_mem {α : Type} (m : List (String × α)) (k : String) (v : α)
    (h : dictFind m k = some v) : (k, v) ∈ m := by
  induction m with
  | nil => exact absurd h (by simp [dictFind])
  | cons p rest ih =>
    by_cases hp : p.1 = k
    · simp only [dictFind, if_pos hp, Option.some.injEq] at h
      have : p = (k, v) := by
        cases p
        simp_all
      exact this ▸ List.mem_cons_self p rest
    · simp only [dictFind, if_neg hp] at h
      exact List.mem_cons_of_mem p (ih h)

theorem find_concept_id_mem_nodes (NR : List NodeRow) (ER : List EdgeRow)
    (name id : String) (h : find_concept_id (loadFromCSV NR ER) name = some id) :
    id ∈ (loadFromCSV NR ER).nodes := by
  have hmap := loadFromCSV_mapping_sub_nodes NR ER
  rcases hd : dictFind (loadFromCSV NR ER).concept_mapping (pyLower name) with _ | i
  · simp only [find_concept_id, hd] at h
    cases hf : (loadFromCSV NR ER).concept_mapping.find?
        (fun p => strContains p.1 (pyLower name) || strContains (pyLower name) p.1) with
    | none => rw [hf] at h; exact absurd h (by simp)
    | some p =>
      rw [hf] at h
      simp only [Option.map_some', Option.some.injEq] at h
      exact h ▸ hmap p (List.mem_of_find?_eq_some hf)
  · simp only [find_concept_id, hd, Option.some.injEq] at h
    exact h ▸ hmap _ (dictFind_mem _ _ _ hd)

/-! ## Resolver specification -/

theorem pathEntry_id (kg : KnowledgeGraph) (tn : List String) (cid : String) :
    (pathEntry kg tn cid).id = cid := by
  cases h : kg.attrs.find? (fun a => a.1 = cid) <;> simp [pathEntry, h]

/-- Core specification of `find_prerequisite_path` on an acyclic load (shared
by the ordering and reload claims): the emitted identifiers are duplicate
free, every graph edge with both endpoints emitted goes source-strictly-
before-target, and every resolvable requested name's identifier is
emitted. -/
theorem find_prerequisite_path_spec (NR : List NodeRow) (ER : List EdgeRow)
    (ts : List String) (rank : String → Nat)
    (hacyc : ∀ e ∈ (loadFromCSV NR ER).edges, rank e.1 < rank e.2.1) :
    ((find_prerequisite_path (loadFromCSV NR ER) ts).map PathEntry.id).Nodup ∧
    (∀ e ∈ (loadFromCSV NR ER).edges,
      e.1 ∈ (find_prerequisite_path (loadFromCSV NR ER) ts).map PathEntry.id →
      e.2.1 ∈ (find_prerequisite_path (loadFromCSV NR ER) ts).map PathEntry.id →
      [e.1, e.2.1].Sublist
        ((find_prerequisite_path (loadFromCSV NR ER) ts).map PathEntry.id)) ∧
    (∀ name ∈ ts, ∀ id, find_concept_id (loadFromCSV NR ER) name = some id →
      id ∈ (find_prerequisite_path (loadFromCSV NR ER) ts).map PathEntry.id) := by
  set kg := loadFromCSV NR ER with hkg
  by_cases hempty : (targetNodesOf kg ts).isEmpty = true
  · have hout : find_prerequisite_path kg ts = [] := by
      simp [find_prerequisite_path, hempty]
    rw [hout]
    refine ⟨List.nodup_nil, fun e _ h1 _ => absurd h1 (by simp), ?_⟩
    intro name hname id hid
    have : id ∈ targetNodesOf kg ts := List.mem_filterMap.mpr ⟨name, hname, hid⟩
    rw [List.isEmpty_iff.mp hempty] at this
    exact absurd this (List.not_mem_nil id)
  · have hconn : ∀ e ∈ subEdgesOf kg (targetNodesOf kg ts), rank e.1 < rank e.2.1 :=
      fun e he => hacyc e (List.mem_filter.mp he).1
    obtain ⟨order, horder⟩ := topoAux_complete _ rank hconn
      (subNodesOf kg (targetNodesOf kg ts)).length
      (subNodesOf kg (targetNodesOf kg ts)) (le_refl _)
    have htopo : topoSort (subNodesOf kg (targetNodesOf kg ts))
        (subEdgesOf kg (targetNodesOf kg ts)) = some order := horder
    have hnd : (subNodesOf kg (targetNodesOf kg ts)).Nodup :=
      (loadFromCSV_nodes_nodup NR ER).filter _
    obtain ⟨hperm, hsub⟩ := topoAux_sound _ _ _ _ hnd horder
    have hout : find_prerequisite_path kg ts =
        (order.filter (fun cid => kg.nodes.contains cid)).map
          (pathEntry kg (targetNodesOf kg ts)) := by
      simp [find_prerequisite_path, hempty, htopo]
    have hfilter : order.filter (fun cid => kg.nodes.contains cid) = order := by
      rw [List.filter_eq_self]
      intro cid hc
      exact List.elem_iff.mpr (List.mem_filter.mp (hperm.mem_iff.mp hc)).1
    have hids : (find_prerequisite_path kg ts).map PathEntry.id = order := by
      rw [hout, hfilter, List.map_map]
      have hcomp : (PathEntry.id ∘ pathEntry kg (targetNodesOf kg ts)) =
          fun cid => cid := by
        funext cid
        exact pathEntry_id kg (targetNodesOf kg ts) cid
      rw [hcomp]
      exact List.map_id' order
    refine ⟨?_, ?_, ?_⟩
    · rw [hids]
      exact hperm.symm.nodup hnd
    · intro e he h1 h2
      rw [hids] at h1 h2 ⊢
      have hp1 : inPrereqs kg (targetNodesOf kg ts) e.1 = true :=
        (List.mem_filter.mp (hperm.mem_iff.mp h1)).2
      have hp2 : inPrereqs kg (targetNodesOf kg ts) e.2.1 = true :=
        (List.mem_filter.mp (hperm.mem_iff.mp h2)).2
      refine hsub e ?_ h1 h2
      refine List.mem_filter.mpr ⟨he, ?_⟩
      rw [Bool.and_eq_true]
      exact ⟨hp1, hp2⟩
    · intro name hname id hid
      have hidtn : id ∈ targetNodesOf kg ts := List.mem_filterMap.mpr ⟨name, hname, hid⟩
      have hidn : id ∈ kg.nodes := find_concept_id_mem_nodes NR ER name id hid
      have hpre : inPrereqs kg (targetNodesOf kg ts) id = true := by
        rw [inPrereqs]
        exact List.any_eq_true.mpr ⟨id, hidtn, reachableB_refl _ _ _⟩
      rw [hids]
      exact hperm.mem_iff.mpr (List.mem_filter.mpr ⟨hidn, hpre⟩)

/-- C1: on any node/edge tables whose edge relation is acyclic (witnessed by
a rank certificate, the standard finite-graph formulation), the learning
path's identifiers contain no duplicates, every graph edge with both
endpoints among them places its source strictly before its target (the pair
embeds as a sublist of the duplicate-free output), and every requested name
that resolves to a node contributes its identifier to the output. -/
theorem resolver_returns_topological_order (NR : List NodeRow)
    (ER : List EdgeRow) (ts : List String) (rank : String → Nat)
    (hacyc : ∀ e ∈ (loadFromCSV NR ER).edges, rank e.1 < rank e.2.1) :
    ((find_prerequisite_path (loadFromCSV NR ER) ts).map PathEntry.id).Nodup ∧
    (∀ e ∈ (loadFromCSV NR ER).edges,
      e.1 ∈ (find_prerequisite_path (loadFromCSV NR ER) ts).map PathEntry.id →
      e.2.1 ∈ (find_prerequisite_path (loadFromCSV NR ER) ts).map PathEntry.id →
      [e.1, e.2.1].Sublist
        ((find_prerequisite_path (loadFromCSV NR ER) ts).map PathEntry.id)) ∧
    (∀ name ∈ ts, ∀ id, find_concept_id (loadFromCSV NR ER) name = some id →
      id ∈ (find_prerequisite_path (loadFromCSV NR ER) ts).map PathEntry.id) :=
  find_prerequisite_path_spec NR ER ts rank hacyc

theorem resolver_returns_topological_order_witness :
    "derivatives" ∈
      (find_prerequisite_path
        (loadFromCSV
          [⟨"limits", "Limits", "d"⟩, ⟨"derivatives", "Derivatives", "dd"⟩]
          [⟨"limits", "derivatives", "prerequisite_for"⟩])
        ["Derivatives"]).map PathEntry.id :=
  (resolver_returns_topological_order
    [⟨"limits", "Limits", "d"⟩, ⟨"derivatives", "Derivatives", "dd"⟩]
    [⟨"limits", "derivatives", "prerequisite_for"⟩]
    ["Derivatives"] (fun s => if s = "limits" then 0 else 1)
    (by decide)).2.2 "Derivatives" (by decide) "derivatives" (by decide)

/-- C4 (with `reload_from_csv` modelled from the spec, the method being
absent from `knowledge_graph.py`): after a successful merge of a fresh
concept, reloading the graph from the updated tables makes a subsequent
`find_prerequisite_path` call on the new concept's name emit the new
concept's identifier (the acyclicity of the reloaded graph is again
witnessed by a rank certificate, matching the spec's cycle-fallback
carve-out). -/
theorem reload_after_merge_resolves_new_concept (NR : List NodeRow)
    (ER : List EdgeRow) (bs : List (List NodeRow × List EdgeRow))
    (sub : Submission) (rels : List RelSubmission) (rank : String → Nat)
    (hfresh : NR.any (fun r => r.node_id = sub.suggested_concept_id) = false)
    (hacyc : ∀ e ∈ (loadFromCSV
        (integrateApprovedSubmission ⟨NR, ER, bs⟩ sub rels none).2.nodes
        (integrateApprovedSubmission ⟨NR, ER, bs⟩ sub rels none).2.edges).edges,
      rank e.1 < rank e.2.1) :
    (integrateApprovedSubmission ⟨NR, ER, bs⟩ sub rels none).1 = true ∧
    sub.suggested_concept_id ∈
      (find_prerequisite_path
        (reload_from_csv
          (integrateApprovedSubmission ⟨NR, ER, bs⟩ sub rels none).2.nodes
          (integrateApprovedSubmission ⟨NR, ER, bs⟩ sub rels none).2.edges)
        [sub.suggested_concept_name]).map PathEntry.id := by
  have hnodes : (integrateApprovedSubmission ⟨NR, ER, bs⟩ sub rels none).2.nodes =
      NR ++ [⟨sub.suggested_concept_id, sub.suggested_concept_name,
        sub.suggested_description⟩] := by
    simp [integrateApprovedSubmission, backupCsvFiles, addConceptToNodes, hfresh]
  refine ⟨by simp [integrateApprovedSubmission], ?_⟩
  rw [reload_from_csv, hnodes]
  have hres : find_concept_id
      (loadFromCSV
        (NR ++ [⟨sub.suggested_concept_id, sub.suggested_concept_name,
          sub.suggested_description⟩])
        (integrateApprovedSubmission ⟨NR, ER, bs⟩ sub rels none).2.edges)
      sub.suggested_concept_name = some sub.suggested_concept_id := by
    refine find_concept_id_of_reverse_find _ _ _
      ⟨sub.suggested_concept_id, sub.suggested_concept_name,
        sub.suggested_description⟩ ?_
    rw [List.reverse_append]
    simp [List.find?, rowKeyMatch]
  have hspec := find_prerequisite_path_spec
    (NR ++ [⟨sub.suggested_concept_id, sub.suggested_concept_name,
      sub.suggested_description⟩])
    (integrateApprovedSubmission ⟨NR, ER, bs⟩ sub rels none).2.edges
    [sub.suggested_concept_name] rank (by rw [← hnodes]; exact hacyc)
  exact hspec.2.2 sub.suggested_concept_name (List.mem_singleton_self _)
    sub.suggested_concept_id hres

theorem reload_after_merge_resolves_new_concept_witness :
    (integrateApprovedSubmission ⟨[⟨"limits", "Limits", "d"⟩], [], []⟩
      ⟨"derivatives", "Derivatives", "dd", ["Limits"], []⟩ [] none).1 = true ∧
    "derivatives" ∈
      (find_prerequisite_path
        (reload_from_csv
          (integrateApprovedSubmission ⟨[⟨"limits", "Limits", "d"⟩], [], []⟩
            ⟨"derivatives", "Derivatives", "dd", ["Limits"], []⟩ [] none).2.nodes
          (integrateApprovedSubmission ⟨[⟨"limits", "Limits", "d"⟩], [], []⟩
            ⟨"derivatives", "Derivatives", "dd", ["Limits"], []⟩ [] none).2.edges)
        ["Derivatives"]).map PathEntry.id :=
  reload_after_merge_resolves_new_concept [⟨"limits", "Limits", "d"⟩] [] []
    ⟨"derivatives", "Derivatives", "dd", ["Limits"], []⟩ []
    (fun s => if s = "limits" then 0 else 1) (by decide) (by decide)

end MathPrereq
